import Mathlib

/-!
Formal model of the search core of the ProblemFinderNode repository.

The development shallowly embeds the JavaScript source into Lean:
pure functions become Lean functions, JavaScript numbers are idealised
as rationals (for the exact, discrete arithmetic of the fallback path)
or reals (for the floating-point linear algebra of the TF-IDF path),
JavaScript `Map`/`Set` objects become insertion-ordered association
lists, thrown exceptions become `Except` errors, and the IEEE NaN value
produced by `0/0` becomes `Option.none` (every ordered comparison with
NaN is false, exactly as `none` is treated below).

Embedded modules:
* `src/backend/utils/similarity.js`  (cosineSimilarity, cosineSimilarityMatrix, getTopSimilar)
* `src/backend/utils/tfidf.js`       (TFIDFVectorizer)
* `src/backend/platforms/codeforce/preprocess/tfidf.js` (createDocumentCorpus)
* `src/backend/platforms/codeforce/codeforce.js` (CodeforceModule.query, fallbackSearch)
-/

/-! ### Similarity engine: `src/backend/utils/similarity.js` -/

/-- An entry of the ranked list produced by `getTopSimilar`:
`similarities.map((score, index) => ({ index, score }))`. -/
structure SimEntry (α : Type) where
  index : Nat
  score : α
  deriving Repr, DecidableEq

/-- The filter-and-sort pipeline inside `getTopSimilar` (similarity.js lines 90-93):
map each score to an `{index, score}` record, keep the entries with
`score >= threshold`, and sort descending by score.  The JavaScript
engine sort is stable and the comparator `(a, b) => b.score - a.score`
orders by descending score, which `mergeSort` with the Boolean relation
`b.score <= a.score` reproduces exactly. -/
def sortedKept {α : Type} [LinearOrder α] (similarities : List α) (threshold : α) :
    List (SimEntry α) :=
  ((similarities.enum.map (fun p => SimEntry.mk p.1 p.2)).filter
      (fun item => decide (threshold ≤ item.score))).mergeSort
    (fun a b => decide (b.score ≤ a.score))

/-- Embeds `getTopSimilar(similarities, k = -1, threshold = 0.01)`
(similarity.js lines 89-100).  After filtering and sorting, the result
is truncated by `results.slice(0, k)` exactly when `k > 0 && k < results.length`. -/
def getTopSimilar {α : Type} [LinearOrder α] (similarities : List α) (k : Int) (threshold : α) :
    List (SimEntry α) :=
  let results := sortedKept similarities threshold
  if 0 < k ∧ k < (results.length : Int) then results.take k.toNat else results

/-- Embeds the accumulation loop of `cosineSimilarity` (similarity.js lines 22-26)
for the dot product: the loop runs `i` from `0` to `a.length - 1`. -/
noncomputable def listDot (a b : List ℝ) : ℝ :=
  ∑ i ∈ Finset.range a.length, a.getD i 0 * b.getD i 0

/-- The accumulated `normA` (respectively `normB`) of the same loop, before
the square root is taken: the sum of squared entries. -/
noncomputable def listNormSq (a : List ℝ) : ℝ :=
  ∑ i ∈ Finset.range a.length, a.getD i 0 * a.getD i 0

open Classical in
/-- Embeds `cosineSimilarity(vectorA, vectorB)` (similarity.js lines 9-36).
A length mismatch throws in the source and is `none` here; a zero norm on
either side short-circuits to `0`; otherwise the result is
`dotProduct / (normA * normB)`. -/
noncomputable def cosineSimilarity (a b : List ℝ) : Option ℝ :=
  if a.length ≠ b.length then none
  else
    let dotProduct := listDot a b
    let normA := Real.sqrt (listNormSq a)
    let normB := Real.sqrt (listNormSq b)
    if normA = 0 ∨ normB = 0 then some 0
    else some (dotProduct / (normA * normB))

/-- Embeds `cosineSimilarityMatrix(tfidfMatrix, queryVector)` (similarity.js
lines 44-55): one similarity per matrix row, in row order; an exception
thrown by `cosineSimilarity` propagates. -/
noncomputable def cosineSimilarityMatrix (tfidfMatrix : List (List ℝ)) (queryVector : List ℝ) :
    Except String (List ℝ) :=
  tfidfMatrix.mapM (fun docVector =>
    match cosineSimilarity docVector queryVector with
    | none => Except.error "Vectors must have the same length"
    | some s => Except.ok s)

/-! ### Insertion-ordered maps

JavaScript `Map` objects iterate in key-insertion order; `Map.set` on an
existing key updates the value in place and keeps the position, while a
new key is appended at the end.  They are modelled as association lists. -/

/-- JavaScript `m.set(k, v)` on the insertion-ordered map `m`. -/
def mapSet {β : Type} (m : List (String × β)) (k : String) (v : β) : List (String × β) :=
  if m.any (fun p => p.1 = k) then m.map (fun p => if p.1 = k then (k, v) else p)
  else m ++ [(k, v)]

/-- JavaScript `m.get(k)` (`undefined` becomes `none`). -/
def mapGet {β : Type} (m : List (String × β)) (k : String) : Option β :=
  (m.find? (fun p => p.1 = k)).map Prod.snd

/-- JavaScript `new Map(entries)`: the entries are inserted left to right. -/
def mapFromEntries {β : Type} (entries : List (String × β)) : List (String × β) :=
  entries.foldl (fun m p => mapSet m p.1 p.2) []

/-! ### Character-level string operations

JavaScript strings are sequences of characters; the string operations the
source uses are modelled on the underlying character list so that every
definition evaluates by kernel reduction. -/

/-- JavaScript `s.toLowerCase()`. -/
def strLower (s : String) : String := ⟨s.data.map Char.toLower⟩

/-- Splitting a character list at every separator character; like
JavaScript `String.prototype.split` with a single-character class, each
separator occurrence ends the current (possibly empty) fragment. -/
def splitCharsAux (p : Char → Bool) : List Char → List Char → List (List Char)
  | [], acc => [acc.reverse]
  | c :: cs, acc =>
    if p c then acc.reverse :: splitCharsAux p cs []
    else splitCharsAux p cs (c :: acc)

/-- JavaScript `s.split(sep)` for a character-class separator. -/
def strSplit (s : String) (p : Char → Bool) : List String :=
  (splitCharsAux p s.data []).map (fun l => ⟨l⟩)

/-- JavaScript `s.substring(0, n)` (the end index is clamped to the
string length). -/
def strTake (s : String) (n : Nat) : String := ⟨s.data.take n⟩

/-- JavaScript `s.length`. -/
def strLength (s : String) : Nat := s.data.length

/-! ### TF-IDF vectorizer: `src/backend/utils/tfidf.js` -/

/-- Modelled from the spec: the external `natural.WordTokenizer` used at
tfidf.js line 18 is not part of this repository; per spec section 4.1 it
tokenizes on word boundaries, so the text is split at every
non-alphanumeric character and empty fragments are discarded. -/
def tokenize (s : String) : List String :=
  (strSplit s (fun c => !c.isAlphanum)).filter (fun t => t ≠ "")

/-- The test `/^[a-zA-Z]+$/.test(token)` of tfidf.js line 24. -/
def isAlphaToken (t : String) : Bool :=
  t ≠ "" && t.data.all (fun c => ('a' ≤ c && c ≤ 'z') || ('A' ≤ c && c ≤ 'Z'))

/-- Embeds `TFIDFVectorizer.preprocessText(text)` (tfidf.js lines 14-30):
lowercase, tokenize, then keep alphabetic tokens of length greater than 1
that are not stopwords.  The English stopword list of the external
`stopword` package is passed in as a parameter. -/
def preprocessText (stopwords : List String) (text : String) : List String :=
  (tokenize (strLower text)).filter (fun token =>
    isAlphaToken token && decide (1 < strLength token) && !stopwords.contains token)

/-- The insertion-ordered token set built by `buildVocabulary` (tfidf.js
lines 33-39): a `Set` keeps first-occurrence order. -/
def insertNew (l : List String) (t : String) : List String :=
  if t ∈ l then l else l ++ [t]

/-- The distinct surviving tokens of all documents, in first-seen order. -/
def buildVocabList (stopwords : List String) (documents : List String) : List String :=
  documents.foldl (fun acc doc => (preprocessText stopwords doc).foldl insertNew acc) []

/-- Embeds `TFIDFVectorizer.buildVocabulary(documents)` (tfidf.js lines
33-48): the token set is converted to a map assigning consecutive indices
in iteration (= insertion) order. -/
def buildVocabulary (stopwords : List String) (documents : List String) :
    List (String × Nat) :=
  (buildVocabList stopwords documents).enum.map (fun p => (p.2, p.1))

/-- Embeds `TFIDFVectorizer.calculateTF(tokens)` (tfidf.js lines 51-65):
count occurrences in a map, then normalize each count by the total token
count.  When `tokens` is empty the map is empty and no division happens. -/
def calculateTF (tokens : List String) : List (String × ℚ) :=
  let totalTokens := tokens.length
  let tf := tokens.foldl (fun m token => mapSet m token ((mapGet m token).getD 0 + 1))
    ([] : List (String × ℚ))
  tf.map (fun p => (p.1, p.2 / (totalTokens : ℚ)))

/-- The number of documents containing `t` at least once after
preprocessing: the value `termDocCount.get(t) || 0` of tfidf.js lines
72-84, where `termDocCount` counts one per document whose unique-token
set contains the term. -/
def docFreq (stopwords : List String) (documents : List String) (t : String) : Nat :=
  (documents.filter (fun doc => t ∈ preprocessText stopwords doc)).length

/-- Embeds `TFIDFVectorizer.calculateIDF(documents)` (tfidf.js lines
68-93): for each vocabulary term, in vocabulary order, the weight is
`ln(docCount / docFreq)` when the document frequency is positive, else 0. -/
noncomputable def calculateIDF (stopwords : List String) (documents : List String)
    (vocabulary : List (String × Nat)) : List (String × ℝ) :=
  vocabulary.map (fun p =>
    let docFreqT := docFreq stopwords documents p.1
    if 0 < docFreqT then
      (p.1, Real.log ((documents.length : ℝ) / (docFreqT : ℝ)))
    else (p.1, (0 : ℝ)))

/-- The state of a `TFIDFVectorizer` instance (tfidf.js lines 5-11). -/
structure TFIDFVectorizer where
  vocabulary : List (String × Nat)
  idf : List (String × ℝ)
  documents : List String
  fitted : Bool

/-- Embeds `TFIDFVectorizer.fit(documents)` (tfidf.js lines 114-120) on a
freshly constructed vectorizer, as every call site in the repository does:
build the vocabulary, then the IDF table, and set the fitted flag. -/
noncomputable def TFIDFVectorizer.fit (stopwords : List String) (documents : List String) :
    TFIDFVectorizer :=
  let vocabulary := buildVocabulary stopwords documents
  { vocabulary := vocabulary
    idf := calculateIDF stopwords documents vocabulary
    documents := documents
    fitted := true }

/-- Embeds `TFIDFVectorizer.documentToVector(doc)` (tfidf.js lines
96-111): start from a zero vector of vocabulary size and write
`tf * idf` at the vocabulary index of each term of the document whose
index is defined; `this.idf.get(token) || 0` defaults a missing IDF
weight to 0. -/
noncomputable def TFIDFVectorizer.documentToVector (stopwords : List String)
    (v : TFIDFVectorizer) (doc : String) : List ℝ :=
  let tokens := preprocessText stopwords doc
  let tf := calculateTF tokens
  tf.foldl (fun vector p =>
    match mapGet v.vocabulary p.1 with
    | none => vector
    | some vocabIndex =>
      vector.set vocabIndex ((p.2 : ℝ) * ((mapGet v.idf p.1).getD 0)))
    (List.replicate v.vocabulary.length (0 : ℝ))

/-- Embeds `TFIDFVectorizer.transform(documents)` (tfidf.js lines
123-130): a usage error is thrown when the vectorizer is not fitted,
otherwise each document is mapped to its vector. -/
noncomputable def TFIDFVectorizer.transform (stopwords : List String)
    (v : TFIDFVectorizer) (documents : List String) : Except String (List (List ℝ)) :=
  if !v.fitted then Except.error "Vectorizer must be fitted before transform"
  else Except.ok (documents.map (v.documentToVector stopwords))

/-- The serialized form of a vectorizer (tfidf.js lines 144-150):
vocabulary and IDF entries in map order, plus the fitted flag.  The
`documents` field is not serialized. -/
structure SerializedVectorizer where
  vocabulary : List (String × Nat)
  idf : List (String × ℝ)
  fitted : Bool

/-- Embeds `TFIDFVectorizer.serialize()` (tfidf.js lines 144-150). -/
def TFIDFVectorizer.serialize (v : TFIDFVectorizer) : SerializedVectorizer :=
  { vocabulary := v.vocabulary, idf := v.idf, fitted := v.fitted }

/-- Embeds `TFIDFVectorizer.deserialize(data)` (tfidf.js lines 153-159):
a fresh vectorizer whose maps are rebuilt with `new Map(entries)` and
whose `documents` stays the empty list of the constructor. -/
def TFIDFVectorizer.deserialize (data : SerializedVectorizer) : TFIDFVectorizer :=
  { vocabulary := mapFromEntries data.vocabulary
    idf := mapFromEntries data.idf
    documents := []
    fitted := data.fitted }

/-! ### Corpus builder: `src/backend/platforms/codeforce/preprocess/tfidf.js` -/

/-- Embeds `createDocumentCorpus(names, texts)` (preprocess/tfidf.js lines
12-35): for each index below `names.length`, the document is four copies
of the name each followed by a space (the `Array(4).fill` join with the
empty separator), then the lowercased text; an absent entry defaults to
the empty string. -/
def createDocumentCorpus (names texts : List String) : List String :=
  (List.range names.length).map (fun i =>
    let name := names.getD i ""
    let text := texts.getD i ""
    String.join (List.replicate 4 (name ++ " ")) ++ strLower text)

/-! ### Codeforces platform module: `src/backend/platforms/codeforce/codeforce.js` -/

/-- JavaScript `s.includes(pat)`: substring containment. -/
def strIncludes (s pat : String) : Bool := decide (pat.data <:+: s.data)

/-- The shortened form `term.substring(0, Math.max(3, term.length - 2))`
of codeforce.js line 120: the term with its last two characters dropped,
never shortened below three characters. -/
def shortenedTerm (term : String) : String := strTake term (max 3 (strLength term - 2))

/-- The per-term score contribution of codeforce.js lines 115-123:
0.5 for a literal substring match in the lowercased problem name plus
0.2 for a match of the shortened form. -/
def termContribution (problemName term : String) : ℚ :=
  (if strIncludes problemName term then 1/2 else 0) +
  (if strIncludes problemName (shortenedTerm term) then 1/5 else 0)

/-- The query terms of codeforce.js lines 105-106: lowercase the query,
split on whitespace runs, and keep only terms of length greater than 2. -/
def queryTermsOf (queryText : String) : List String :=
  (strSplit (strLower queryText) (fun c => c.isWhitespace)).filter
    (fun term => decide (2 < strLength term))

/-- The raw (pre-rounding) fallback score of one problem name
(codeforce.js lines 112-126): the summed contributions divided by the
number of query terms.  With zero query terms the source computes the
IEEE quotient `0 / 0 = NaN`, modelled as `none`; every subsequent
`>=` comparison against NaN is false. -/
def rawFallbackScore (queryTerms : List String) (problemName : String) : Option ℚ :=
  let score := queryTerms.foldl (fun acc term => acc + termContribution problemName term) 0
  if queryTerms.length = 0 then none else some (score / (queryTerms.length : ℚ))

/-- JavaScript `Math.round(q * 1000) / 1000` (codeforce.js line 132):
`Math.round` rounds half-up, as does `round` on `ℚ`. -/
def round3 (q : ℚ) : ℚ := ((round (q * 1000) : ℤ) : ℚ) / 1000

/-- One entry pushed by `fallbackSearch` (codeforce.js lines 129-134). -/
structure FallbackResult where
  name : String
  url : String
  score : ℚ
  index : Nat
  deriving Repr, DecidableEq

/-- Embeds `CodeforceModule.fallbackSearch(queryText, threshold)`
(codeforce.js lines 97-151): guard on an empty problem list, score each
problem name, keep scores at or above the threshold (with the rounded
score stored), sort descending by the stored score with the stable
engine sort, and slice to the top 50. -/
def fallbackSearch (problemNames problemUrls : List String) (queryText : String)
    (threshold : ℚ) : List FallbackResult :=
  if problemNames.length = 0 then []
  else
    let queryTerms := queryTermsOf queryText
    let results := (List.range problemNames.length).filterMap (fun i =>
      let problemName := strLower (problemNames.getD i "")
      match rawFallbackScore queryTerms problemName with
      | none => none
      | some score =>
        if threshold ≤ score then
          some ⟨problemNames.getD i "", problemUrls.getD i "", round3 score, i⟩
        else none)
    ((results.mergeSort (fun a b => decide (b.score ≤ a.score))).take 50)

/-- One entry of a `query` result (codeforce.js lines 81-85 and 129-134):
the primary path returns `{name, url, score}` records, the fallback path
additionally carries the problem index. -/
structure SearchResult where
  name : String
  url : String
  score : ℝ
  index : Option Nat

/-- The in-memory state loaded by a successful `initialize()`
(codeforce.js lines 16-50): vectorizer, TF-IDF matrix (with its stored
column count) and the index-aligned problem names and urls. -/
structure CFData where
  vectorizer : TFIDFVectorizer
  matrix : List (List ℝ)
  matrixCols : Nat
  problemNames : List String
  problemUrls : List String

/-- A `FallbackResult` as it leaves `query` (the fallback objects are
returned unchanged, so they keep their `index` field). -/
noncomputable def FallbackResult.toSearchResult (r : FallbackResult) : SearchResult :=
  ⟨r.name, r.url, (r.score : ℝ), some r.index⟩

/-- The body of `CodeforceModule.query(queryText, threshold)`
(codeforce.js lines 52-94) with every throwing step in `Except`:
`data = none` is a failed lazy initialization (missing preprocessed
artifacts, lines 23-31); a non-string argument is `queryText = none`;
the falsy check `!queryText` catches the empty string; a matrix with at
most one row and at most one column routes to the fallback; otherwise
the query is vectorized and ranked with `getTopSimilar(sims, -1, threshold)`
and scores are rounded to three decimals. -/
noncomputable def queryBody (stopwords : List String) (data : Option CFData)
    (queryText : Option String) (threshold : ℚ) : Except String (List SearchResult) :=
  match data with
  | none => Except.error "Codeforces preprocessed data not found. Please run preprocessing first."
  | some d =>
    match queryText with
    | none => Except.ok []
    | some q =>
      if q = "" then Except.ok []
      else if d.matrix.length ≤ 1 ∧ d.matrixCols ≤ 1 then
        Except.ok ((fallbackSearch d.problemNames d.problemUrls q threshold).map
          FallbackResult.toSearchResult)
      else
        match d.vectorizer.transform stopwords [strLower q] with
        | Except.error e => Except.error e
        | Except.ok vecs =>
          match vecs with
          | [] => Except.error "matrix index out of range"
          | queryVector :: _ =>
            match cosineSimilarityMatrix d.matrix queryVector with
            | Except.error e => Except.error e
            | Except.ok similarities =>
              let topResults := getTopSimilar similarities (-1) ((threshold : ℝ))
              Except.ok (topResults.map (fun r =>
                ⟨d.problemNames.getD r.index "", d.problemUrls.getD r.index "",
                  ((round (r.score * 1000) : ℤ) : ℝ) / 1000, none⟩))

/-- Embeds the whole of `CodeforceModule.query` including its enclosing
`try/catch` (codeforce.js lines 52-94): any error raised inside the body
is caught and converted to the empty result list. -/
noncomputable def queryRun (stopwords : List String) (data : Option CFData)
    (queryText : Option String) (threshold : ℚ) : List SearchResult :=
  match queryBody stopwords data queryText threshold with
  | Except.ok results => results
  | Except.error _ => []

/-! ### The fallback pipeline as the specification words it (for claim C1) -/

/-- The per-problem fallback score in the words of the specification:
add 0.5 per query term that is a literal substring of the lowercased
problem name, plus 0.2 per term whose shortened form (the term with its
last two characters dropped, minimum length 3) is a substring; divide
the sum by the number of query terms. -/
def specScore (terms : List String) (name : String) : ℚ :=
  ((terms.map (fun t =>
    (if strIncludes (strLower name) t then (1/2 : ℚ) else 0) +
    (if strIncludes (strLower name) (strTake t (max 3 (strLength t - 2))) then (1/5 : ℚ)
      else 0))).sum) / (terms.length : ℚ)

/-- The fallback pipeline in the words of the specification: split the
query into whitespace-separated terms of length greater than 2, keep the
problems whose score is at least the threshold, sort descending by the
(3-decimal rounded) stored score, and return at most the top 50.  When
the term list is empty the quotient in the source is NaN and no entry
passes the threshold test, hence the `terms ≠ []` conjunct. -/
def fallbackSpecModel (problemNames problemUrls : List String) (queryText : String)
    (threshold : ℚ) : List FallbackResult :=
  let terms := (strSplit (strLower queryText) (fun c => c.isWhitespace)).filter
    (fun t => decide (2 < strLength t))
  let kept := (List.range problemNames.length).filterMap (fun i =>
    if terms ≠ [] ∧ threshold ≤ specScore terms (problemNames.getD i "") then
      some ⟨problemNames.getD i "", problemUrls.getD i "",
        round3 (specScore terms (problemNames.getD i "")), i⟩
    else none)
  (kept.mergeSort (fun a b => decide (b.score ≤ a.score))).take 50

/-! ### Shared lemmas -/

lemma fallbackSearch_eq_nil_of_terms_nil (problemNames problemUrls : List String)
    (queryText : String) (threshold : ℚ) (hterms : queryTermsOf queryText = []) :
    fallbackSearch problemNames problemUrls queryText threshold = [] := by
  unfold fallbackSearch
  rcases Nat.eq_zero_or_pos problemNames.length with hlen | hlen
  · rw [if_pos hlen]
  · rw [if_neg (Nat.pos_iff_ne_zero.mp hlen)]
    rw [hterms]
    simp [show ∀ x, rawFallbackScore [] x = none from fun _ => rfl,
      List.filterMap_eq_nil_iff.mpr (fun a _ => rfl)]

lemma mapSet_append_of_not_mem {β : Type} (m : List (String × β)) (p : String × β)
    (h : ∀ q ∈ m, q.1 ≠ p.1) : mapSet m p.1 p.2 = m ++ [p] := by
  unfold mapSet
  have hany : m.any (fun q => q.1 = p.1) = false := by
    simp only [List.any_eq_false, decide_eq_true_eq]
    exact fun q hq => h q hq
  rw [hany]
  simp

lemma foldl_mapSet_of_nodup {β : Type} :
    ∀ (l acc : List (String × β)), (((acc ++ l).map Prod.fst).Nodup) →
      l.foldl (fun m p => mapSet m p.1 p.2) acc = acc ++ l := by
  intro l
  induction l with
  | nil => intro acc _; simp
  | cons p l ih =>
    intro acc h
    have hfresh : ∀ q ∈ acc, q.1 ≠ p.1 := by
      intro q hq heq
      have hd := h
      rw [List.map_append, List.nodup_append] at hd
      refine hd.2.2 (List.mem_map_of_mem Prod.fst hq) ?_
      rw [heq]
      exact List.mem_map_of_mem Prod.fst (List.mem_cons_self p l)
    have hstep : mapSet acc p.1 p.2 = acc ++ [p] := mapSet_append_of_not_mem acc p hfresh
    calc (p :: l).foldl (fun m q => mapSet m q.1 q.2) acc
        = l.foldl (fun m q => mapSet m q.1 q.2) (mapSet acc p.1 p.2) := rfl
      _ = l.foldl (fun m q => mapSet m q.1 q.2) (acc ++ [p]) := by rw [hstep]
      _ = (acc ++ [p]) ++ l := by
            apply ih
            simpa using h
      _ = acc ++ p :: l := by simp

lemma mapFromEntries_of_nodup {β : Type} (l : List (String × β))
    (h : (l.map Prod.fst).Nodup) : mapFromEntries l = l := by
  have := foldl_mapSet_of_nodup l [] (by simpa using h)
  simpa [mapFromEntries] using this

lemma foldl_add_contributions (name : String) :
    ∀ (terms : List String) (acc : ℚ),
      terms.foldl (fun acc t => acc + termContribution name t) acc
        = acc + (terms.map (termContribution name)).sum := by
  intro terms
  induction terms with
  | nil => intro acc; simp
  | cons t terms ih =>
    intro acc
    rw [List.foldl_cons, ih]
    simp [add_assoc]

lemma pairwise_mergeSort_fallback (l : List FallbackResult) :
    (l.mergeSort (fun a b => decide (b.score ≤ a.score))).Pairwise
      (fun a b => b.score ≤ a.score) := by
  have h := @List.sorted_mergeSort FallbackResult
    (fun a b => decide (b.score ≤ a.score))
    (fun a b c hab hbc => by
      have h1 : b.score ≤ a.score := of_decide_eq_true hab
      have h2 : c.score ≤ b.score := of_decide_eq_true hbc
      exact decide_eq_true (le_trans h2 h1))
    (fun a b => by
      rcases le_total b.score a.score with h | h
      · simp [h]
      · simp [h])
    l
  exact h.imp (fun hab => of_decide_eq_true hab)

lemma mem_foldl_insertNew (t : String) :
    ∀ (tokens acc : List String), t ∈ tokens.foldl insertNew acc ↔ t ∈ acc ∨ t ∈ tokens := by
  intro tokens
  induction tokens with
  | nil => intro acc; simp
  | cons x tokens ih =>
    intro acc
    rw [List.foldl_cons, ih]
    unfold insertNew
    by_cases hx : x ∈ acc
    · rw [if_pos hx]
      constructor
      · rintro (h | h)
        · exact Or.inl h
        · exact Or.inr (List.mem_cons_of_mem x h)
      · rintro (h | h)
        · exact Or.inl h
        · rcases List.mem_cons.mp h with h | h
          · exact Or.inl (h ▸ hx)
          · exact Or.inr h
    · rw [if_neg hx]
      constructor
      · rintro (h | h)
        · rcases List.mem_append.mp h with h | h
          · exact Or.inl h
          · exact Or.inr (List.mem_cons.mpr (Or.inl (List.mem_singleton.mp h)))
        · exact Or.inr (List.mem_cons_of_mem x h)
      · rintro (h | h)
        · exact Or.inl (List.mem_append.mpr (Or.inl h))
        · rcases List.mem_cons.mp h with h | h
          · exact Or.inl (List.mem_append.mpr (Or.inr (List.mem_singleton.mpr h)))
          · exact Or.inr h

lemma mem_buildVocabList (stopwords : List String) (t : String) :
    ∀ (documents acc : List String),
      t ∈ documents.foldl (fun acc doc => (preprocessText stopwords doc).foldl insertNew acc) acc
        ↔ t ∈ acc ∨ ∃ doc ∈ documents, t ∈ preprocessText stopwords doc := by
  intro documents
  induction documents with
  | nil => intro acc; simp
  | cons d documents ih =>
    intro acc
    rw [List.foldl_cons, ih, mem_foldl_insertNew]
    constructor
    · rintro ((h | h) | h)
      · exact Or.inl h
      · exact Or.inr ⟨d, List.mem_cons_self d documents, h⟩
      · rcases h with ⟨doc, hdoc, hmem⟩
        exact Or.inr ⟨doc, List.mem_cons_of_mem d hdoc, hmem⟩
    · rintro (h | ⟨doc, hdoc, hmem⟩)
      · exact Or.inl (Or.inl h)
      · rcases List.mem_cons.mp hdoc with h | h
        · exact Or.inl (Or.inr (h ▸ hmem))
        · exact Or.inr ⟨doc, h, hmem⟩

lemma vocab_term_in_some_document {stopwords documents : List String} {t : String} {i : Nat}
    (hmem : (t, i) ∈ buildVocabulary stopwords documents) :
    ∃ doc ∈ documents, t ∈ preprocessText stopwords doc := by
  unfold buildVocabulary at hmem
  rcases List.mem_map.mp hmem with ⟨p, hp, hpe⟩
  have ht : t ∈ buildVocabList stopwords documents := by
    have h2 : p.2 = t := congrArg Prod.fst hpe
    have : p.2 ∈ (buildVocabList stopwords documents).enum.map Prod.snd :=
      List.mem_map_of_mem Prod.snd hp
    rw [List.enum_map_snd] at this
    rwa [h2] at this
  have := (mem_buildVocabList stopwords t documents []).mp ht
  simpa using this

/-! ### Claim theorems -/

lemma listNormSq_nonneg (a : List ℝ) : 0 ≤ listNormSq a :=
  Finset.sum_nonneg (fun i _ => mul_self_nonneg (a.getD i 0))

/-- C3: for equal-length vectors the cosine similarity is defined (no
exception) and lies in `[-1, 1]`; it is exactly 0 whenever either vector
has zero norm (no division by zero), and every non-zero vector has
similarity 1 with itself. -/
theorem cosineSimilarity_spec (a b v : List ℝ) (hab : a.length = b.length)
    (hv : ¬ ∀ x ∈ v, x = 0) :
    (∃ r, cosineSimilarity a b = some r ∧ -1 ≤ r ∧ r ≤ 1) ∧
    ((listNormSq a = 0 ∨ listNormSq b = 0) → cosineSimilarity a b = some 0) ∧
    cosineSimilarity v v = some 1 := by
  have hlen : ¬a.length ≠ b.length := fun h => h hab
  refine ⟨?_, ?_, ?_⟩
  · unfold cosineSimilarity
    rw [if_neg hlen]
    by_cases hz : Real.sqrt (listNormSq a) = 0 ∨ Real.sqrt (listNormSq b) = 0
    · exact ⟨0, by rw [if_pos hz], by norm_num, by norm_num⟩
    · push_neg at hz
      have hA : 0 < Real.sqrt (listNormSq a) :=
        lt_of_le_of_ne (Real.sqrt_nonneg _) (Ne.symm hz.1)
      have hB : 0 < Real.sqrt (listNormSq b) :=
        lt_of_le_of_ne (Real.sqrt_nonneg _) (Ne.symm hz.2)
      have hAB : 0 < Real.sqrt (listNormSq a) * Real.sqrt (listNormSq b) := mul_pos hA hB
      have hcs : (listDot a b) ^ 2 ≤ listNormSq a * listNormSq b := by
        unfold listDot listNormSq
        rw [hab]
        have := Finset.sum_mul_sq_le_sq_mul_sq (Finset.range b.length)
          (fun i => a.getD i 0) (fun i => b.getD i 0)
        simpa [pow_two] using this
      have habs : |listDot a b| ≤ Real.sqrt (listNormSq a) * Real.sqrt (listNormSq b) := by
        calc |listDot a b| = Real.sqrt ((listDot a b) ^ 2) :=
              (Real.sqrt_sq_eq_abs _).symm
          _ ≤ Real.sqrt (listNormSq a * listNormSq b) := Real.sqrt_le_sqrt hcs
          _ = Real.sqrt (listNormSq a) * Real.sqrt (listNormSq b) :=
              Real.sqrt_mul (listNormSq_nonneg a) _
      refine ⟨listDot a b / (Real.sqrt (listNormSq a) * Real.sqrt (listNormSq b)),
        by rw [if_neg (not_or.mpr ⟨hz.1, hz.2⟩)], ?_⟩
      have : |listDot a b / (Real.sqrt (listNormSq a) * Real.sqrt (listNormSq b))| ≤ 1 := by
        rw [abs_div, abs_of_pos hAB]
        rw [div_le_one hAB]
        exact habs
      exact ⟨(abs_le.mp this).1, (abs_le.mp this).2⟩
  · intro h
    unfold cosineSimilarity
    rw [if_neg hlen]
    rcases h with h | h
    · rw [if_pos (Or.inl (by rw [h, Real.sqrt_zero]))]
    · rw [if_pos (Or.inr (by rw [h, Real.sqrt_zero]))]
  · have hS : 0 < listNormSq v := by
      push_neg at hv
      rcases hv with ⟨x, hxv, hx⟩
      rcases List.mem_iff_getElem.mp hxv with ⟨j, hj, hxj⟩
      refine Finset.sum_pos' (fun i _ => mul_self_nonneg _) ⟨j, Finset.mem_range.mpr hj, ?_⟩
      have : v.getD j 0 = x := by
        rw [List.getD_eq_getElem?_getD, List.getElem?_eq_getElem hj]
        simpa using hxj
      rw [this]
      exact mul_self_pos.mpr hx
    have hroot : 0 < Real.sqrt (listNormSq v) := Real.sqrt_pos.mpr hS
    unfold cosineSimilarity
    rw [if_neg (fun h => h rfl)]
    rw [if_neg (not_or.mpr ⟨ne_of_gt hroot, ne_of_gt hroot⟩)]
    have hdot : listDot v v = listNormSq v := rfl
    rw [hdot, Real.mul_self_sqrt (le_of_lt hS), div_self (ne_of_gt hS)]

/-- Witness for C3 with the unit vector `[1]`. -/
theorem cosineSimilarity_spec_witness :
    ([(1 : ℝ)].length = [(1 : ℝ)].length) ∧
    (¬ ∀ x ∈ [(1 : ℝ)], x = 0) ∧
    cosineSimilarity [(1 : ℝ)] [(1 : ℝ)] = some 1 :=
  ⟨rfl, by simp, (cosineSimilarity_spec [(1 : ℝ)] [(1 : ℝ)] [(1 : ℝ)] rfl (by simp)).2.2⟩

/-- C4: after fitting, every vocabulary term has document frequency at
least 1 (the vocabulary is built from the same documents), its IDF table
entry is `ln(docCount / df)`, that weight is non-negative, and a term
appearing in every document gets weight 0. -/
theorem idf_weights_spec (stopwords documents : List String) (t : String) (i : Nat)
    (hmem : (t, i) ∈ (TFIDFVectorizer.fit stopwords documents).vocabulary) :
    1 ≤ docFreq stopwords documents t ∧
    docFreq stopwords documents t ≤ documents.length ∧
    (t, Real.log ((documents.length : ℝ) / (docFreq stopwords documents t : ℝ)))
      ∈ (TFIDFVectorizer.fit stopwords documents).idf ∧
    0 ≤ Real.log ((documents.length : ℝ) / (docFreq stopwords documents t : ℝ)) ∧
    (docFreq stopwords documents t = documents.length →
      Real.log ((documents.length : ℝ) / (docFreq stopwords documents t : ℝ)) = 0) := by
  have hvocab : (t, i) ∈ buildVocabulary stopwords documents := hmem
  rcases vocab_term_in_some_document hvocab with ⟨doc, hdoc, htok⟩
  have hdf : 1 ≤ docFreq stopwords documents t := by
    unfold docFreq
    have hmem2 : doc ∈ documents.filter (fun d => t ∈ preprocessText stopwords d) :=
      List.mem_filter.mpr ⟨hdoc, decide_eq_true htok⟩
    exact Nat.succ_le_of_lt (List.length_pos.mpr (List.ne_nil_of_mem hmem2))
  have hdfle : docFreq stopwords documents t ≤ documents.length :=
    List.length_filter_le _ _
  have hdfpos : (0 : ℝ) < (docFreq stopwords documents t : ℝ) := by
    exact_mod_cast Nat.lt_of_lt_of_le Nat.zero_lt_one hdf
  refine ⟨hdf, hdfle, ?_, ?_, ?_⟩
  · have := List.mem_map_of_mem (fun p : String × Nat =>
      let docFreqT := docFreq stopwords documents p.1
      if 0 < docFreqT then
        (p.1, Real.log ((documents.length : ℝ) / (docFreqT : ℝ)))
      else (p.1, (0 : ℝ))) hvocab
    simpa [TFIDFVectorizer.fit, calculateIDF, Nat.lt_of_lt_of_le Nat.zero_lt_one hdf]
      using this
  · apply Real.log_nonneg
    rw [le_div_iff₀ hdfpos]
    have : (docFreq stopwords documents t : ℝ) ≤ (documents.length : ℝ) := by
      exact_mod_cast hdfle
    simpa using this
  · intro heq
    have hlen : (0 : ℝ) < (documents.length : ℝ) := by
      exact_mod_cast Nat.lt_of_lt_of_le Nat.zero_lt_one (heq ▸ hdf)
    rw [heq, div_self (ne_of_gt hlen), Real.log_one]

/-- Witness for C4 on a two-document corpus. -/
theorem idf_weights_spec_witness :
    ("ab", 0) ∈ (TFIDFVectorizer.fit [] ["ab cd", "ab"]).vocabulary ∧
    1 ≤ docFreq [] ["ab cd", "ab"] "ab" ∧
    0 ≤ Real.log (((["ab cd", "ab"] : List String).length : ℝ)
      / (docFreq [] ["ab cd", "ab"] "ab" : ℝ)) :=
  ⟨by decide, (idf_weights_spec [] ["ab cd", "ab"] "ab" 0 (by decide)).1,
    (idf_weights_spec [] ["ab cd", "ab"] "ab" 0 (by decide)).2.2.2.1⟩

/-- C5: the corpus builder yields one document per index of the
equal-length input lists, and the document at index `i` is the name at
`i` repeated four times, space-joined (each copy followed by its joining
space), followed by the lowercased text at `i`, in that order. -/
theorem corpus_structure_spec (names texts : List String)
    (h : names.length = texts.length) :
    (createDocumentCorpus names texts).length = names.length ∧
    (createDocumentCorpus names texts).length = texts.length ∧
    ∀ i, i < names.length →
      (createDocumentCorpus names texts).getD i "" =
        names.getD i "" ++ " " ++ names.getD i "" ++ " " ++ names.getD i "" ++ " " ++
          names.getD i "" ++ " " ++ strLower (texts.getD i "") := by
  refine ⟨by simp [createDocumentCorpus], by simp [createDocumentCorpus, h], ?_⟩
  intro i hi
  unfold createDocumentCorpus
  rw [List.getD_eq_getElem?_getD, List.getElem?_map, List.getElem?_range hi]
  simp [String.join, String.append_assoc]

/-- Witness for C5 at a concrete problem list. -/
theorem corpus_structure_spec_witness :
    (["Two Sum"] : List String).length = (["array HASH"] : List String).length ∧
    (createDocumentCorpus ["Two Sum"] ["array HASH"]).getD 0 "" =
      "Two Sum" ++ " " ++ "Two Sum" ++ " " ++ "Two Sum" ++ " " ++ "Two Sum" ++ " " ++
        strLower "array HASH" :=
  ⟨rfl, (corpus_structure_spec ["Two Sum"] ["array HASH"] rfl).2.2 0 (by decide)⟩

/-- C7: fitting is deterministic.  The embedding is a pure function —
faithfully so, because the source uses only insertion-ordered `Map`/`Set`
iteration and no randomness or ambient state — hence two runs of `fit`
on the same documents (with the same stopword set) produce identical
vocabulary index assignments, identical IDF weights, and identical
`transform` outputs. -/
theorem fit_deterministic (sw1 sw2 docs1 docs2 : List String)
    (hsw : sw1 = sw2) (hdocs : docs1 = docs2) :
    (TFIDFVectorizer.fit sw1 docs1).vocabulary = (TFIDFVectorizer.fit sw2 docs2).vocabulary ∧
    (TFIDFVectorizer.fit sw1 docs1).idf = (TFIDFVectorizer.fit sw2 docs2).idf ∧
    (TFIDFVectorizer.fit sw1 docs1).transform sw1 docs1
      = (TFIDFVectorizer.fit sw2 docs2).transform sw2 docs2 := by
  subst hsw
  subst hdocs
  exact ⟨rfl, rfl, rfl⟩

/-- Witness for C7 at a concrete corpus. -/
theorem fit_deterministic_witness :
    (TFIDFVectorizer.fit [] ["ab cd"]).vocabulary = (TFIDFVectorizer.fit [] ["ab cd"]).vocabulary ∧
    (TFIDFVectorizer.fit [] ["ab cd"]).idf = (TFIDFVectorizer.fit [] ["ab cd"]).idf ∧
    (TFIDFVectorizer.fit [] ["ab cd"]).transform [] ["ab cd"]
      = (TFIDFVectorizer.fit [] ["ab cd"]).transform [] ["ab cd"] :=
  fit_deterministic [] [] ["ab cd"] ["ab cd"] rfl rfl

/-- C8: a document with no surviving tokens after preprocessing maps to
the all-zero vector of vocabulary size; `calculateTF` builds an empty
map from an empty token list, so the `count / totalTokens` division is
never executed and no division by zero occurs. -/
theorem documentToVector_zero_on_no_tokens (stopwords : List String)
    (v : TFIDFVectorizer) (doc : String)
    (h : preprocessText stopwords doc = []) :
    v.documentToVector stopwords doc = List.replicate v.vocabulary.length 0 := by
  unfold TFIDFVectorizer.documentToVector
  rw [h]
  rfl

/-- Witness for C8: a document of stopwords, punctuation and numerals. -/
theorem documentToVector_zero_on_no_tokens_witness :
    preprocessText ["the"] "the x! 42" = [] ∧
    TFIDFVectorizer.documentToVector ["the"]
        ⟨[("ab", 0)], [("ab", 1)], [], true⟩ "the x! 42"
      = List.replicate 1 0 :=
  ⟨by decide, documentToVector_zero_on_no_tokens ["the"] ⟨[("ab", 0)], [("ab", 1)], [], true⟩
    "the x! 42" (by decide)⟩

/-- C9: serialization round-trip.  `serialize` stores the vocabulary and
IDF entries in map order and `deserialize` rebuilds both maps with
`new Map(entries)`; since a JavaScript `Map` never holds duplicate keys,
the rebuilt maps, and the fitted flag, equal the originals. -/
theorem serialize_roundtrip (v : TFIDFVectorizer)
    (hvocab : (v.vocabulary.map Prod.fst).Nodup)
    (hidf : (v.idf.map Prod.fst).Nodup) :
    (TFIDFVectorizer.deserialize v.serialize).vocabulary = v.vocabulary ∧
    (TFIDFVectorizer.deserialize v.serialize).idf = v.idf ∧
    (TFIDFVectorizer.deserialize v.serialize).fitted = v.fitted := by
  unfold TFIDFVectorizer.deserialize TFIDFVectorizer.serialize
  exact ⟨mapFromEntries_of_nodup v.vocabulary hvocab, mapFromEntries_of_nodup v.idf hidf, rfl⟩

/-- Witness for C9 at a concrete vectorizer. -/
theorem serialize_roundtrip_witness :
    ((⟨[("ab", 0), ("cd", 1)], [("ab", 1)], [], true⟩ : TFIDFVectorizer).vocabulary.map
        Prod.fst).Nodup ∧
    (TFIDFVectorizer.deserialize
        (⟨[("ab", 0), ("cd", 1)], [("ab", 1)], [], true⟩ : TFIDFVectorizer).serialize).vocabulary
      = [("ab", 0), ("cd", 1)] :=
  ⟨by decide,
    (serialize_roundtrip ⟨[("ab", 0), ("cd", 1)], [("ab", 1)], [], true⟩
      (by decide) (by decide)).1⟩

/-- C6: the platform query operation never raises: a failed lazy
initialization (`data = none`), a non-string query (`queryText = none`),
an empty query, and any error produced while computing results (any
`Except.error` outcome of the body) all yield the empty result list at
the `query` boundary, and a successful body is returned as is. -/
theorem query_error_isolation (stopwords : List String) (data : Option CFData)
    (queryText : Option String) (threshold : ℚ) :
    (∀ e, queryBody stopwords data queryText threshold = Except.error e →
      queryRun stopwords data queryText threshold = []) ∧
    (data = none → queryRun stopwords data queryText threshold = []) ∧
    (queryText = none ∨ queryText = some "" →
      queryRun stopwords data queryText threshold = []) ∧
    (∀ results, queryBody stopwords data queryText threshold = Except.ok results →
      queryRun stopwords data queryText threshold = results) := by
  refine ⟨?_, ?_, ?_, ?_⟩
  · intro e he
    unfold queryRun
    rw [he]
  · intro hdata
    subst hdata
    rfl
  · intro hq
    cases hq with
    | inl h =>
      subst h
      cases data with
      | none => rfl
      | some d => rfl
    | inr h =>
      subst h
      cases data with
      | none => rfl
      | some d => rfl
  · intro results hok
    unfold queryRun
    rw [hok]

/-- Witness for C6: a failed initialization yields the empty list. -/
theorem query_error_isolation_witness :
    (none : Option CFData) = none ∧ queryRun [] none none 0 = [] :=
  ⟨rfl, (query_error_isolation [] none none 0).2.1 rfl⟩

/-- C10: a query in which every whitespace-separated term has length at
most 2 leaves no query terms after the length filter; each problem then
scores `0 / 0 = NaN`, the `score >= threshold` test on NaN is false, and
the fallback returns the empty list over any problem set. -/
theorem fallbackSearch_short_terms_empty (problemNames problemUrls : List String)
    (queryText : String) (threshold : ℚ) (hne : queryText ≠ "")
    (hshort : ∀ t ∈ strSplit (strLower queryText) (fun c => c.isWhitespace),
      strLength t ≤ 2) :
    fallbackSearch problemNames problemUrls queryText threshold = [] := by
  have hterms : queryTermsOf queryText = [] := by
    unfold queryTermsOf
    rw [List.filter_eq_nil_iff]
    intro t ht
    simpa using hshort t ht
  exact fallbackSearch_eq_nil_of_terms_nil problemNames problemUrls queryText threshold hterms

lemma mem_sortedKept_threshold {α : Type} [LinearOrder α] {similarities : List α}
    {threshold : α} {e : SimEntry α} (h : e ∈ sortedKept similarities threshold) :
    threshold ≤ e.score := by
  unfold sortedKept at h
  have hmem := (List.mergeSort_perm _ _).subset h
  have := (List.mem_filter.mp hmem).2
  exact of_decide_eq_true this

lemma sortedKept_pairwise {α : Type} [LinearOrder α] (similarities : List α)
    (threshold : α) :
    (sortedKept similarities threshold).Pairwise (fun a b => b.score ≤ a.score) := by
  unfold sortedKept
  have h := @List.sorted_mergeSort (SimEntry α)
    (fun a b => decide (b.score ≤ a.score))
    (fun a b c hab hbc => by
      have h1 : b.score ≤ a.score := of_decide_eq_true hab
      have h2 : c.score ≤ b.score := of_decide_eq_true hbc
      exact decide_eq_true (le_trans h2 h1))
    (fun a b => by
      rcases le_total b.score a.score with h | h
      · simp [h]
      · simp [h])
    ((similarities.enum.map (fun p => SimEntry.mk p.1 p.2)).filter
      (fun item => decide (threshold ≤ item.score)))
  exact h.imp (fun hab => of_decide_eq_true hab)

/-- C2: `getTopSimilar` returns only entries at or above the threshold,
sorted non-increasing by score; for `k > 0` it is the `k`-prefix of the
sorted passing list (hence at most `k` entries, the highest ones), and
for `k <= 0` it is the whole sorted passing list. -/
theorem getTopSimilar_spec {α : Type} [LinearOrder α] (similarities : List α)
    (k : Int) (threshold : α) :
    (∀ e ∈ getTopSimilar similarities k threshold, threshold ≤ e.score) ∧
    (getTopSimilar similarities k threshold).Pairwise (fun a b => b.score ≤ a.score) ∧
    (0 < k →
      getTopSimilar similarities k threshold
          = (sortedKept similarities threshold).take k.toNat ∧
      (getTopSimilar similarities k threshold).length ≤ k.toNat) ∧
    (k ≤ 0 → getTopSimilar similarities k threshold = sortedKept similarities threshold) := by
  refine ⟨?_, ?_, ?_, ?_⟩
  · intro e he
    refine @mem_sortedKept_threshold α _ similarities threshold e ?_
    unfold getTopSimilar at he
    by_cases hcond : 0 < k ∧ k < ((sortedKept similarities threshold).length : Int)
    · rw [if_pos hcond] at he
      exact List.take_subset _ _ he
    · rwa [if_neg hcond] at he
  · unfold getTopSimilar
    by_cases hcond : 0 < k ∧ k < ((sortedKept similarities threshold).length : Int)
    · rw [if_pos hcond]
      exact (sortedKept_pairwise similarities threshold).sublist (List.take_sublist _ _)
    · rw [if_neg hcond]
      exact sortedKept_pairwise similarities threshold
  · intro hk
    have heq : getTopSimilar similarities k threshold
        = (sortedKept similarities threshold).take k.toNat := by
      unfold getTopSimilar
      by_cases hcond : 0 < k ∧ k < ((sortedKept similarities threshold).length : Int)
      · rw [if_pos hcond]
      · rw [if_neg hcond]
        have hlen : (sortedKept similarities threshold).length ≤ k.toNat := by
          omega
        rw [List.take_of_length_le hlen]
    refine ⟨heq, ?_⟩
    rw [heq]
    simp
  · intro hk
    unfold getTopSimilar
    rw [if_neg (fun hcond => absurd hk (not_le.mpr hcond.1))]

/-- Witness for C2 at concrete similarity scores with `k = 2`. -/
theorem getTopSimilar_spec_witness :
    0 < (2 : Int) ∧
    (getTopSimilar [(1 : ℚ)/2, 3/100, 2, 1/200] 2 (1/100)).length ≤ (2 : Int).toNat :=
  ⟨by decide, ((getTopSimilar_spec [(1 : ℚ)/2, 3/100, 2, 1/200] 2 (1/100)).2.2.1
    (by decide)).2⟩

lemma fallbackSearch_eq (names urls : List String) (q : String) (th : ℚ) :
    fallbackSearch names urls q th =
      if names.length = 0 then []
      else (((List.range names.length).filterMap (fun i =>
        match rawFallbackScore (queryTermsOf q) (strLower (names.getD i "")) with
        | none => none
        | some score =>
          if th ≤ score then some ⟨names.getD i "", urls.getD i "", round3 score, i⟩
          else none)).mergeSort
            (fun a b => decide (b.score ≤ a.score))).take 50 := rfl

lemma fallbackSpecModel_eq (names urls : List String) (q : String) (th : ℚ) :
    fallbackSpecModel names urls q th =
      (((List.range names.length).filterMap (fun i =>
        if queryTermsOf q ≠ [] ∧ th ≤ specScore (queryTermsOf q) (names.getD i "") then
          some ⟨names.getD i "", urls.getD i "",
            round3 (specScore (queryTermsOf q) (names.getD i "")), i⟩
        else none)).mergeSort
          (fun a b => decide (b.score ≤ a.score))).take 50 := rfl

lemma rawFallbackScore_eq_specScore (terms : List String) (name : String)
    (ht : terms ≠ []) :
    rawFallbackScore terms (strLower name) = some (specScore terms name) := by
  unfold rawFallbackScore
  rw [if_neg (fun h => ht (List.length_eq_zero.mp h))]
  congr 1
  rw [foldl_add_contributions (strLower name) terms 0, zero_add]
  rfl

/-- C1: with the trivial placeholder matrix loaded (at most one row and
at most one column, the shape of the 1x1 sentinel), `query` performs no
vector math: it returns exactly the fallback substring-overlap result;
that result equals the pipeline the specification describes (split into
terms of length greater than 2, score 0.5 per substring term plus 0.2
per shortened-form substring term, normalize by the term count, keep
scores at or above the threshold, sort descending, cap at 50), is sorted
non-increasing by stored score, and holds at most 50 entries. -/
theorem fallback_pipeline_spec (stopwords : List String) (d : CFData) (q : String)
    (th : ℚ) (htriv : d.matrix.length ≤ 1 ∧ d.matrixCols ≤ 1) :
    queryRun stopwords (some d) (some q) th
      = (fallbackSearch d.problemNames d.problemUrls q th).map
          FallbackResult.toSearchResult ∧
    fallbackSearch d.problemNames d.problemUrls q th
      = fallbackSpecModel d.problemNames d.problemUrls q th ∧
    (fallbackSearch d.problemNames d.problemUrls q th).Pairwise
      (fun a b => b.score ≤ a.score) ∧
    (fallbackSearch d.problemNames d.problemUrls q th).length ≤ 50 := by
  refine ⟨?_, ?_, ?_, ?_⟩
  · by_cases hq : q = ""
    · subst hq
      rw [fallbackSearch_eq_nil_of_terms_nil d.problemNames d.problemUrls "" th (by decide)]
      rfl
    · simp only [queryRun, queryBody, if_neg hq, if_pos htriv]
  · rw [fallbackSearch_eq, fallbackSpecModel_eq]
    by_cases hlen : d.problemNames.length = 0
    · rw [if_pos hlen, hlen]
      simp
    · rw [if_neg hlen]
      congr 2
      apply List.filterMap_congr
      intro i _
      by_cases ht : queryTermsOf q = []
      · rw [ht]
        have hnone : rawFallbackScore [] (strLower (d.problemNames.getD i "")) = none := rfl
        rw [hnone]
        simp
      · rw [rawFallbackScore_eq_specScore _ _ ht]
        by_cases hth : th ≤ specScore (queryTermsOf q) (d.problemNames.getD i "")
        · rw [if_pos ⟨ht, hth⟩]
          exact if_pos hth
        · rw [if_neg (fun hc => hth hc.2)]
          exact if_neg hth
  · rw [fallbackSearch_eq]
    by_cases hlen : d.problemNames.length = 0
    · rw [if_pos hlen]
      exact List.Pairwise.nil
    · rw [if_neg hlen]
      exact (pairwise_mergeSort_fallback _).sublist (List.take_sublist _ _)
  · rw [fallbackSearch_eq]
    by_cases hlen : d.problemNames.length = 0
    · rw [if_pos hlen]
      simp
    · rw [if_neg hlen]
      simp

/-- Witness for C1 at the example of the specification: a 1x1 placeholder
matrix, problems "Binary Search Tree" and "Graph Coloring", and the query
"binary search". -/
theorem fallback_pipeline_spec_witness :
    ((⟨⟨[], [], [], true⟩, [[0]], 1, ["Binary Search Tree", "Graph Coloring"],
        ["u1", "u2"]⟩ : CFData).matrix.length ≤ 1 ∧
      (⟨⟨[], [], [], true⟩, [[0]], 1, ["Binary Search Tree", "Graph Coloring"],
        ["u1", "u2"]⟩ : CFData).matrixCols ≤ 1) ∧
    queryRun [] (some ⟨⟨[], [], [], true⟩, [[0]], 1,
        ["Binary Search Tree", "Graph Coloring"], ["u1", "u2"]⟩) (some "binary search") (1/100)
      = (fallbackSearch ["Binary Search Tree", "Graph Coloring"] ["u1", "u2"]
          "binary search" (1/100)).map FallbackResult.toSearchResult :=
  ⟨⟨by decide, by decide⟩,
    (fallback_pipeline_spec [] ⟨⟨[], [], [], true⟩, [[0]], 1,
      ["Binary Search Tree", "Graph Coloring"], ["u1", "u2"]⟩ "binary search" (1/100)
      ⟨by decide, by decide⟩).1⟩

/-- Witness for C10: the query "ab cd" has only short terms. -/
theorem fallbackSearch_short_terms_empty_witness :
    "ab cd" ≠ "" ∧
    (∀ t ∈ strSplit (strLower "ab cd") (fun c => c.isWhitespace), strLength t ≤ 2) ∧
    fallbackSearch ["A"] ["u"] "ab cd" 0 = [] :=
  ⟨by decide, by decide, fallbackSearch_short_terms_empty ["A"] ["u"] "ab cd" 0
    (by decide) (by decide)⟩
